import Mathlib

/-!
A shallow embedding of the orchestration code of the SageMaker workshop
notebooks: the job-status polling loops of the Textract, Autopilot and
HPO notebooks, the Textract result-pagination loop, the Comprehend
Medical text-chunking loop, the two data-splitting steps, and the
resource-cleanup cells, together with theorems about them.

Each loop is modelled as a pure function of the finite sequence of values
the remote service returns to its successive calls; the function yields
the trace of observable actions (sleeps and status queries) next to the
loop's result.  An exhausted sequence models a service that never answers
the next call: the loop is still blocked there, so it has no result.
-/

namespace SMWorkshop

/-- An observable action of a notebook cell: sleeping for a number of
seconds, a status query (`get_document_analysis` / `describe_auto_ml_job` /
`describe_hyper_parameter_tuning_job`) that returned the given status, the
downstream step that follows the polling loop (result fetch, BestCandidate
lookup, `tuner.deploy`), or a cancellation of the remote job (no notebook
ever performs one, but the action is in the alphabet so that its absence is
sayable). -/
inductive Ev where
  | sleep (secs : Nat)
  | poll (status : String)
  | fetch
  | cancel
deriving DecidableEq, Repr

/-- `status == "IN_PROGRESS"`: the condition of the Textract notebook's
`while` loop (Document processing.ipynb). -/
def textractBusy (s : String) : Bool := s == "IN_PROGRESS"

/-- `job_run_status not in ('Failed', 'Completed', 'Stopped')` is the
Autopilot loop's condition; this is the membership test it negates
(autopilot_customer_churn.ipynb). -/
def autoMLTerminal (s : String) : Bool :=
  s == "Failed" || s == "Completed" || s == "Stopped"

/-- `hpo_state == "InProgress"`: the non-`None` half of the HPO notebook's
`while` condition. -/
def hpoBusy (s : String) : Bool := s == "InProgress"

/-- The Textract polling cell:
`time.sleep(5); response = get_document_analysis(...); status = ...;
while(status == "IN_PROGRESS"): time.sleep(5); response = ...; status = ...`.
Both the pre-loop query and each in-loop query are preceded by a 5 second
sleep, so one recursion covers both. -/
def textractPoll : List String → List Ev × Option String
  | [] => ([Ev.sleep 5], none)
  | s :: rest =>
    if textractBusy s then
      (Ev.sleep 5 :: Ev.poll s :: (textractPoll rest).1, (textractPoll rest).2)
    else
      ([Ev.sleep 5, Ev.poll s], some s)

/-- The body/condition part of the Autopilot polling cell, entered with the
most recently observed status `s`:
`while job_run_status not in ('Failed','Completed','Stopped'):
   describe_response = describe_auto_ml_job(...); job_run_status = ...;
   print(...); sleep(30)`.
Note the loop queries again immediately (no sleep first) and sleeps 30
seconds after every in-loop query, including the one that returned a
terminal status. -/
def autopilotLoop : String → List String → List Ev × Option String
  | s, rest =>
    if autoMLTerminal s then ([], some s)
    else
      match rest with
      | [] => ([], none)
      | s' :: rest' =>
        (Ev.poll s' :: Ev.sleep 30 :: (autopilotLoop s' rest').1,
         (autopilotLoop s' rest').2)

/-- The whole Autopilot polling cell: one `describe_auto_ml_job` call before
the loop, then the loop. -/
def autopilotPoll : List String → List Ev × Option String
  | [] => ([], none)
  | s :: rest => (Ev.poll s :: (autopilotLoop s rest).1, (autopilotLoop s rest).2)

/-- The body/condition part of the HPO polling cell, entered with the most
recently observed state `s`:
`while hpo_state is None or hpo_state == "InProgress":
   if hpo_state is not None: print("-", end=""); time.sleep(60)
   hpo_state = describe_hyper_parameter_tuning_job(...)[...]`.
After the first query, every further query is preceded by a 60 second
sleep. -/
def hpoLoop : String → List String → List Ev × Option String
  | s, rest =>
    if hpoBusy s then
      match rest with
      | [] => ([Ev.sleep 60], none)
      | s' :: rest' =>
        (Ev.sleep 60 :: Ev.poll s' :: (hpoLoop s' rest').1, (hpoLoop s' rest').2)
    else ([], some s)

/-- The whole HPO polling cell: `hpo_state = None` makes the first loop
iteration query without sleeping, then `hpoLoop` takes over. -/
def hpoPoll : List String → List Ev × Option String
  | [] => ([], none)
  | s :: rest => (Ev.poll s :: (hpoLoop s rest).1, (hpoLoop s rest).2)

/-- The Textract notebook's cells run in order: the cell that fetches the
result pages runs exactly when the polling cell before it has finished,
which happens exactly when the loop produced a result. -/
def textractNotebook (statuses : List String) : List Ev :=
  match textractPoll statuses with
  | (tr, some _) => tr ++ [Ev.fetch]
  | (tr, none) => tr

/-- The Autopilot notebook: the `BestCandidate` lookup cell runs exactly
when the polling cell before it has finished. -/
def autopilotNotebook (statuses : List String) : List Ev :=
  match autopilotPoll statuses with
  | (tr, some _) => tr ++ [Ev.fetch]
  | (tr, none) => tr

/-- The HPO notebook: the `tuner.deploy` cell runs exactly when the polling
cell before it has finished. -/
def hpoNotebook (statuses : List String) : List Ev :=
  match hpoPoll statuses with
  | (tr, some _) => tr ++ [Ev.fetch]
  | (tr, none) => tr

/-- Is an event a status query? -/
def isPoll : Ev → Bool
  | Ev.poll _ => true
  | _ => false

/-- Number of status queries in a trace. -/
def pollCount (tr : List Ev) : Nat := tr.countP isPoll

/-- An event with the queried status erased: what is left of a trace when
only its control flow, not the prose of the statuses, is looked at. -/
def eraseStatus : Ev → Ev
  | Ev.poll _ => Ev.poll ""
  | e => e

/-- The bare kind of action, forgetting both statuses and sleep durations:
the alphabet in which the spec compares the three polling clients. -/
inductive PollAct where
  | sleepAct
  | queryAct
  | otherAct
deriving DecidableEq, Repr

/-- Forget everything about an event but its kind. -/
def actOf : Ev → PollAct
  | Ev.sleep _ => PollAct.sleepAct
  | Ev.poll _ => PollAct.queryAct
  | _ => PollAct.otherAct

/-- Does the trace contain two status queries with nothing at all between
them? -/
def adjacentPolls : List Ev → Bool
  | a :: b :: rest => (isPoll a && isPoll b) || adjacentPolls (b :: rest)
  | _ => false

/-- How many statuses a loop consumes from the stream before exiting, when
`busy` is the loop's continue-condition: one query for the first status,
one more for every busy status. -/
def consumeCount (busy : String → Bool) : List String → Nat
  | [] => 0
  | s :: rest => if busy s then consumeCount busy rest + 1 else 1

/-! ## Polling under exceptions

A `describe`/`get` call that raises is an `Except.error`; none of the
notebooks contains a `try`/`except`, so in Python the exception aborts the
cell and the loop's value is that exception.  The loops below are the same
three loops run against a stream in which any call may raise. -/

/-- The Textract polling cell when calls may raise. -/
def textractPollE {E : Type} : List (Except E String) → Except E (Option String)
  | [] => Except.ok none
  | Except.error e :: _ => Except.error e
  | Except.ok s :: rest =>
    if textractBusy s then textractPollE rest else Except.ok (some s)

/-- The Autopilot loop body when calls may raise, entered with the last
observed status `s`. -/
def autopilotLoopE {E : Type} : String → List (Except E String) → Except E (Option String)
  | s, rest =>
    if autoMLTerminal s then Except.ok (some s)
    else
      match rest with
      | [] => Except.ok none
      | Except.error e :: _ => Except.error e
      | Except.ok s' :: rest' => autopilotLoopE s' rest'

/-- The whole Autopilot polling cell when calls may raise. -/
def autopilotPollE {E : Type} : List (Except E String) → Except E (Option String)
  | [] => Except.ok none
  | Except.error e :: _ => Except.error e
  | Except.ok s :: rest => autopilotLoopE s rest

/-- The whole HPO polling cell when calls may raise; its consumption
pattern is the same as `textractPollE` with its own condition. -/
def hpoPollE {E : Type} : List (Except E String) → Except E (Option String)
  | [] => Except.ok none
  | Except.error e :: _ => Except.error e
  | Except.ok s :: rest =>
    if hpoBusy s then hpoPollE rest else Except.ok (some s)

/-! ## The Textract pagination loop -/

/-- One `get_document_analysis` response, abstracted to an opaque payload
id and the optional `NextToken` entry of the returned dict. -/
structure TResponse where
  payload : Nat
  nextToken : Option String
deriving DecidableEq, Repr

/-- Python truthiness of the notebook's `nextToken` variable, which is
`None` when the response had no `NextToken` key and the token string
otherwise: `while(nextToken)` continues only on a non-`None`, nonempty
string. -/
def truthy : Option String → Bool
  | none => false
  | some t => !(t == "")

/-- The result-fetch cell of the Textract notebook:
`pages = [first response]; nextToken = response['NextToken'] if present;
while(nextToken): response = get_document_analysis(JobId, NextToken=nextToken);
pages.append(response); nextToken = ...`.
`r` is the response just received, `rest` the responses the service will
give to the following requests; the value is the final `pages` list next
to the list of `NextToken` values passed to the successive requests.
When the loop issues a request the stream cannot answer, the loop is
blocked; the pages and tokens so far are returned for inspection. -/
def fetchPages : TResponse → List TResponse → List TResponse × List String
  | r, rest =>
    match r.nextToken with
    | none => ([r], [])
    | some t =>
      if t == "" then ([r], [])
      else
        match rest with
        | [] => ([r], [t])
        | r' :: rest' => (r :: (fetchPages r' rest').1, t :: (fetchPages r' rest').2)

/-! ## The Comprehend Medical chunking loop -/

/-- Python `range(start, stop, step)` for a positive `step`. -/
def pyRange (start stop step : Nat) : List Nat :=
  (List.range ((stop - start + step - 1) / step)).map (fun j => start + j * step)

/-- `maxLength=20000` in the Comprehend Medical cell. -/
def maxLength : Nat := 20000

/-- Python slice `xs[i : i+k]`. -/
def pySlice (xs : List α) (i k : Nat) : List α := (xs.drop i).take k

/-- The texts submitted for one page by
`for i in range(0, len(pageText), maxLength): ... detect_entities_v2(Text=...)`,
generalised over the chunk bound.  Modelled from the spec: the
`detect_entities_v2` `Text` argument is a fill-in placeholder in the
notebook; per the spec ("batching text into 20,000-byte chunks") and the
notebook's own prose ("batches of 20,000 UTF-8 characters"), the slice
submitted at `i` is `pageText[i : i+maxLength]`. -/
def chunksOf (k : Nat) (pageText : List Char) : List (List Char) :=
  (pyRange 0 pageText.length k).map (fun i => pySlice pageText i k)

/-- The chunks of one page's text as submitted by the Comprehend Medical
cell. -/
def comprehendChunks (pageText : List Char) : List (List Char) :=
  chunksOf maxLength pageText

/-! ## The two data splits -/

/-- `np.split(df, [a, b])`: the three consecutive slices `df[0:a]`,
`df[a:b]`, `df[b:]` (the XGBoost/HPO notebook calls it on the shuffled
frame with `a = int(0.7*len)`, `b = int(0.9*len)`). -/
def npSplit3 (xs : List ρ) (a b : Nat) : List ρ × List ρ × List ρ :=
  (xs.take a, (xs.drop a).take (b - a), xs.drop b)

/-- A dataframe row with its index label.  `churn` has the distinct
`RangeIndex` labels `pandas.read_csv` assigns. -/
abbrev Row (ρ : Type) := Nat × ρ

/-- `churn.sample(frac=0.8, random_state=200)`, membership-wise: the RNG
picks a set of index labels (modelled by its membership test `S`); the
sample holds exactly the rows of the frame whose label was picked.  (The
order the RNG gives the sampled rows plays no role in the claim.) -/
def sampleRows (churn : List (Row ρ)) (S : Nat → Bool) : List (Row ρ) :=
  churn.filter (fun r => S r.1)

/-- `churn.drop(train_data.index)`: the frame without the rows whose label
is in the given label set. -/
def dropRows (churn : List (Row ρ)) (S : Nat → Bool) : List (Row ρ) :=
  churn.filter (fun r => !S r.1)

/-! ## Created and deleted resources -/

/-- Kinds of SageMaker resources in the Autopilot notebook's deploy and
cleanup cells. -/
inductive RKind where
  | model
  | endpointConfig
  | endpoint
deriving DecidableEq, Repr

/-- The resources the Autopilot notebook creates after training:
`model_name = best_candidate_name + timestamp_suffix + "-model"` via
`create_model`, then `epc_name = ... + "-epc"` via `create_endpoint_config`,
then `ep_name = ... + "-ep"` via `create_endpoint`. -/
def autopilotCreated (cand suffix : String) : List (RKind × String) :=
  [(RKind.model, cand ++ suffix ++ "-model"),
   (RKind.endpointConfig, cand ++ suffix ++ "-epc"),
   (RKind.endpoint, cand ++ suffix ++ "-ep")]

/-- The resources the Autopilot cleanup cell deletes:
`delete_endpoint(EndpointName=ep_name)`,
`delete_endpoint_config(EndpointConfigName=epc_name)`,
`delete_model(ModelName=model_name)`. -/
def autopilotDeleted (cand suffix : String) : List (RKind × String) :=
  [(RKind.endpoint, cand ++ suffix ++ "-ep"),
   (RKind.endpointConfig, cand ++ suffix ++ "-epc"),
   (RKind.model, cand ++ suffix ++ "-model")]

/-- Every name the Textract notebook's own cells bind, in cell order:
imports, the upload cell (`fileName`, `fileUploadPath`, `S3_path`), the
Textract cells, and the Comprehend cells.  (The wildcard
`from preprocess import *` brings in the result-visualisation helpers such
as `extractMC_v2` and `color`; it is the only binder the list cannot
enumerate.) -/
def textractAssignedNames : List String :=
  ["boto3", "time", "sagemaker", "os", "trp", "pd",
   "bucket", "prefix",
   "fileName", "fileUploadPath", "S3_path",
   "textract", "response", "textractJobId", "status",
   "pages", "nextToken", "doc", "idx",
   "maxLength", "comprehendResponse", "comprehend_medical_client",
   "page", "pageText", "i", "patient_string", "df_cm"]

/-- The S3 key the upload cell writes to:
`S3_path = os.path.join('sagemaker/medical_notes', 'data', 'sample_report.pdf')`. -/
def textractUploadKey : String := "sagemaker/medical_notes" ++ "/data/" ++ "sample_report.pdf"

/-! ## Unfolding equations for the loops -/

theorem textractPoll_nil : textractPoll [] = ([Ev.sleep 5], none) := rfl

theorem textractPoll_cons_busy {s : String} {rest : List String}
    (h : textractBusy s = true) :
    textractPoll (s :: rest) =
      (Ev.sleep 5 :: Ev.poll s :: (textractPoll rest).1, (textractPoll rest).2) := by
  simp [textractPoll, h]

theorem textractPoll_cons_done {s : String} {rest : List String}
    (h : textractBusy s = false) :
    textractPoll (s :: rest) = ([Ev.sleep 5, Ev.poll s], some s) := by
  simp [textractPoll, h]

theorem autopilotLoop_term {s : String} {rest : List String}
    (h : autoMLTerminal s = true) : autopilotLoop s rest = ([], some s) := by
  cases rest <;> simp [autopilotLoop, h]

theorem autopilotLoop_busy_nil {s : String}
    (h : autoMLTerminal s = false) : autopilotLoop s [] = ([], none) := by
  simp [autopilotLoop, h]

theorem autopilotLoop_busy_cons {s s' : String} {rest' : List String}
    (h : autoMLTerminal s = false) :
    autopilotLoop s (s' :: rest') =
      (Ev.poll s' :: Ev.sleep 30 :: (autopilotLoop s' rest').1,
       (autopilotLoop s' rest').2) := by
  simp [autopilotLoop, h]

theorem hpoLoop_done {s : String} {rest : List String}
    (h : hpoBusy s = false) : hpoLoop s rest = ([], some s) := by
  cases rest <;> simp [hpoLoop, h]

theorem hpoLoop_busy_nil {s : String}
    (h : hpoBusy s = true) : hpoLoop s [] = ([Ev.sleep 60], none) := by
  simp [hpoLoop, h]

theorem hpoLoop_busy_cons {s s' : String} {rest' : List String}
    (h : hpoBusy s = true) :
    hpoLoop s (s' :: rest') =
      (Ev.sleep 60 :: Ev.poll s' :: (hpoLoop s' rest').1, (hpoLoop s' rest').2) := by
  simp [hpoLoop, h]

/-! ## Results of the polling loops -/

theorem textractPoll_some_not_busy :
    ∀ (ss : List String) (u : String),
      (textractPoll ss).2 = some u → textractBusy u = false := by
  intro ss
  induction ss with
  | nil => intro u h; simp [textractPoll_nil] at h
  | cons s rest ih =>
    intro u h
    cases hb : textractBusy s with
    | true => rw [textractPoll_cons_busy hb] at h; exact ih u h
    | false =>
      rw [textractPoll_cons_done hb] at h
      simp at h
      exact h ▸ hb

theorem autopilotLoop_some_terminal :
    ∀ (rest : List String) (s u : String),
      (autopilotLoop s rest).2 = some u → autoMLTerminal u = true := by
  intro rest
  induction rest with
  | nil =>
    intro s u h
    cases hb : autoMLTerminal s with
    | true => rw [autopilotLoop_term hb] at h; simp at h; exact h ▸ hb
    | false => rw [autopilotLoop_busy_nil hb] at h; simp at h
  | cons s' rest' ih =>
    intro s u h
    cases hb : autoMLTerminal s with
    | true => rw [autopilotLoop_term hb] at h; simp at h; exact h ▸ hb
    | false => rw [autopilotLoop_busy_cons hb] at h; exact ih s' u h

theorem hpoLoop_some_not_busy :
    ∀ (rest : List String) (s u : String),
      (hpoLoop s rest).2 = some u → hpoBusy u = false := by
  intro rest
  induction rest with
  | nil =>
    intro s u h
    cases hb : hpoBusy s with
    | true => rw [hpoLoop_busy_nil hb] at h; simp at h
    | false => rw [hpoLoop_done hb] at h; simp at h; exact h ▸ hb
  | cons s' rest' ih =>
    intro s u h
    cases hb : hpoBusy s with
    | true => rw [hpoLoop_busy_cons hb] at h; exact ih s' u h
    | false => rw [hpoLoop_done hb] at h; simp at h; exact h ▸ hb

theorem textractPoll_first_terminal :
    ∀ (pre : List String) (t : String) (rest : List String),
      (∀ p ∈ pre, textractBusy p = true) → textractBusy t = false →
      (textractPoll (pre ++ t :: rest)).2 = some t := by
  intro pre
  induction pre with
  | nil =>
    intro t rest _ ht
    rw [List.nil_append, textractPoll_cons_done ht]
  | cons p pre' ih =>
    intro t rest hpre ht
    have hp : textractBusy p = true := hpre p (List.mem_cons_self p pre')
    rw [List.cons_append, textractPoll_cons_busy hp]
    exact ih t rest (fun q hq => hpre q (List.mem_cons_of_mem p hq)) ht

theorem autopilotLoop_first_terminal :
    ∀ (pre : List String) (s t : String) (rest : List String),
      autoMLTerminal s = false → (∀ p ∈ pre, autoMLTerminal p = false) →
      autoMLTerminal t = true →
      (autopilotLoop s (pre ++ t :: rest)).2 = some t := by
  intro pre
  induction pre with
  | nil =>
    intro s t rest hs _ ht
    rw [List.nil_append, autopilotLoop_busy_cons hs, autopilotLoop_term ht]
  | cons p pre' ih =>
    intro s t rest hs hpre ht
    rw [List.cons_append, autopilotLoop_busy_cons hs]
    exact ih p t rest (hpre p (List.mem_cons_self p pre'))
      (fun q hq => hpre q (List.mem_cons_of_mem p hq)) ht

theorem hpoLoop_first_terminal :
    ∀ (pre : List String) (s t : String) (rest : List String),
      hpoBusy s = true → (∀ p ∈ pre, hpoBusy p = true) → hpoBusy t = false →
      (hpoLoop s (pre ++ t :: rest)).2 = some t := by
  intro pre
  induction pre with
  | nil =>
    intro s t rest hs _ ht
    rw [List.nil_append, hpoLoop_busy_cons hs, hpoLoop_done ht]
  | cons p pre' ih =>
    intro s t rest hs hpre ht
    rw [List.cons_append, hpoLoop_busy_cons hs]
    exact ih p t rest (hpre p (List.mem_cons_self p pre'))
      (fun q hq => hpre q (List.mem_cons_of_mem p hq)) ht

/-- C2: each polling loop polls until the status is terminal and exits
exactly then: a loop that exits last observed a status other than its
in-progress one (for the Autopilot loop, one of Failed/Completed/Stopped),
and on a stream whose first terminal status is `t`, each loop exits with
exactly that `t`. -/
theorem poll_loops_exit_only_terminal (ss : List String) :
    (∀ u, (textractPoll ss).2 = some u → textractBusy u = false) ∧
    (∀ u, (autopilotPoll ss).2 = some u → autoMLTerminal u = true) ∧
    (∀ u, (hpoPoll ss).2 = some u → hpoBusy u = false) ∧
    (∀ pre t rest, ss = pre ++ t :: rest →
      ((∀ p ∈ pre, textractBusy p = true) → textractBusy t = false →
        (textractPoll ss).2 = some t) ∧
      ((∀ p ∈ pre, autoMLTerminal p = false) → autoMLTerminal t = true →
        (autopilotPoll ss).2 = some t) ∧
      ((∀ p ∈ pre, hpoBusy p = true) → hpoBusy t = false →
        (hpoPoll ss).2 = some t)) := by
  refine ⟨textractPoll_some_not_busy ss, ?_, ?_, ?_⟩
  · intro u h
    cases ss with
    | nil => simp [autopilotPoll] at h
    | cons s rest => exact autopilotLoop_some_terminal rest s u h
  · intro u h
    cases ss with
    | nil => simp [hpoPoll] at h
    | cons s rest => exact hpoLoop_some_not_busy rest s u h
  · intro pre t rest hss
    subst hss
    refine ⟨fun hpre ht => textractPoll_first_terminal pre t rest hpre ht, ?_, ?_⟩
    · intro hpre ht
      cases pre with
      | nil =>
        show (autopilotPoll (t :: rest)).2 = some t
        simp [autopilotPoll, autopilotLoop_term ht]
      | cons p pre' =>
        show (autopilotPoll (p :: (pre' ++ t :: rest))).2 = some t
        simp only [autopilotPoll]
        exact autopilotLoop_first_terminal pre' p t rest
          (hpre p (List.mem_cons_self p pre'))
          (fun q hq => hpre q (List.mem_cons_of_mem p hq)) ht
    · intro hpre ht
      cases pre with
      | nil =>
        show (hpoPoll (t :: rest)).2 = some t
        simp [hpoPoll, hpoLoop_done ht]
      | cons p pre' =>
        show (hpoPoll (p :: (pre' ++ t :: rest))).2 = some t
        simp only [hpoPoll]
        exact hpoLoop_first_terminal pre' p t rest
          (hpre p (List.mem_cons_self p pre'))
          (fun q hq => hpre q (List.mem_cons_of_mem p hq)) ht

/-- Witness for C2 on a concrete stream: one in-progress response then
`SUCCEEDED` / `Completed`, with the hypotheses discharged by computation. -/
theorem poll_loops_exit_only_terminal_witness :
    (textractPoll ["IN_PROGRESS", "SUCCEEDED"]).2 = some "SUCCEEDED" ∧
    (autopilotPoll ["InProgress", "Completed"]).2 = some "Completed" ∧
    (hpoPoll ["InProgress", "Completed"]).2 = some "Completed" := by
  refine ⟨?_, ?_, ?_⟩
  · exact ((poll_loops_exit_only_terminal
      ["IN_PROGRESS", "SUCCEEDED"]).2.2.2 ["IN_PROGRESS"] "SUCCEEDED" [] rfl).1
      (by decide) (by decide)
  · exact ((poll_loops_exit_only_terminal
      ["InProgress", "Completed"]).2.2.2 ["InProgress"] "Completed" [] rfl).2.1
      (by decide) (by decide)
  · exact ((poll_loops_exit_only_terminal
      ["InProgress", "Completed"]).2.2.2 ["InProgress"] "Completed" [] rfl).2.2
      (by decide) (by decide)

/-! ## Traces of the polling loops -/

theorem textractPoll_no_fetch : ∀ ss : List String, Ev.fetch ∉ (textractPoll ss).1 := by
  intro ss
  induction ss with
  | nil => simp [textractPoll_nil]
  | cons s rest ih =>
    cases hb : textractBusy s with
    | true => rw [textractPoll_cons_busy hb]; simp [ih]
    | false => rw [textractPoll_cons_done hb]; simp

theorem autopilotLoop_no_fetch :
    ∀ (rest : List String) (s : String), Ev.fetch ∉ (autopilotLoop s rest).1 := by
  intro rest
  induction rest with
  | nil =>
    intro s
    cases hb : autoMLTerminal s with
    | true => rw [autopilotLoop_term hb]; simp
    | false => rw [autopilotLoop_busy_nil hb]; simp
  | cons s' rest' ih =>
    intro s
    cases hb : autoMLTerminal s with
    | true => rw [autopilotLoop_term hb]; simp
    | false => rw [autopilotLoop_busy_cons hb]; simp [ih s']

theorem hpoLoop_no_fetch :
    ∀ (rest : List String) (s : String), Ev.fetch ∉ (hpoLoop s rest).1 := by
  intro rest
  induction rest with
  | nil =>
    intro s
    cases hb : hpoBusy s with
    | true => rw [hpoLoop_busy_nil hb]; simp
    | false => rw [hpoLoop_done hb]; simp
  | cons s' rest' ih =>
    intro s
    cases hb : hpoBusy s with
    | true => rw [hpoLoop_busy_cons hb]; simp [ih s']
    | false => rw [hpoLoop_done hb]; simp

theorem textractPoll_some_split :
    ∀ (ss : List String) (u : String), (textractPoll ss).2 = some u →
      ∃ pre rest2, (textractPoll ss).1 = pre ++ Ev.poll u :: rest2 := by
  intro ss
  induction ss with
  | nil => intro u h; simp [textractPoll_nil] at h
  | cons s rest ih =>
    intro u h
    cases hb : textractBusy s with
    | true =>
      rw [textractPoll_cons_busy hb] at h ⊢
      obtain ⟨pre, rest2, heq⟩ := ih u h
      exact ⟨Ev.sleep 5 :: Ev.poll s :: pre, rest2, by simp [heq]⟩
    | false =>
      rw [textractPoll_cons_done hb] at h ⊢
      simp at h
      exact ⟨[Ev.sleep 5], [], by simp [h]⟩

theorem autopilotLoop_some_split :
    ∀ (rest : List String) (s u : String), (autopilotLoop s rest).2 = some u →
      ((autopilotLoop s rest).1 = [] ∧ u = s) ∨
      (∃ pre rest2, (autopilotLoop s rest).1 = pre ++ Ev.poll u :: rest2) := by
  intro rest
  induction rest with
  | nil =>
    intro s u h
    cases hb : autoMLTerminal s with
    | true => rw [autopilotLoop_term hb] at h ⊢; simp at h; exact Or.inl ⟨rfl, h.symm⟩
    | false => rw [autopilotLoop_busy_nil hb] at h; simp at h
  | cons s' rest' ih =>
    intro s u h
    cases hb : autoMLTerminal s with
    | true => rw [autopilotLoop_term hb] at h ⊢; simp at h; exact Or.inl ⟨rfl, h.symm⟩
    | false =>
      rw [autopilotLoop_busy_cons hb] at h ⊢
      rcases ih s' u h with ⟨htr, hu⟩ | ⟨pre, rest2, heq⟩
      · exact Or.inr ⟨[], [Ev.sleep 30], by simp [htr, hu]⟩
      · exact Or.inr ⟨Ev.poll s' :: Ev.sleep 30 :: pre, rest2, by simp [heq]⟩

theorem hpoLoop_some_split :
    ∀ (rest : List String) (s u : String), (hpoLoop s rest).2 = some u →
      ((hpoLoop s rest).1 = [] ∧ u = s) ∨
      (∃ pre rest2, (hpoLoop s rest).1 = pre ++ Ev.poll u :: rest2) := by
  intro rest
  induction rest with
  | nil =>
    intro s u h
    cases hb : hpoBusy s with
    | true => rw [hpoLoop_busy_nil hb] at h; simp at h
    | false => rw [hpoLoop_done hb] at h ⊢; simp at h; exact Or.inl ⟨rfl, h.symm⟩
  | cons s' rest' ih =>
    intro s u h
    cases hb : hpoBusy s with
    | true =>
      rw [hpoLoop_busy_cons hb] at h ⊢
      rcases ih s' u h with ⟨htr, hu⟩ | ⟨pre, rest2, heq⟩
      · exact Or.inr ⟨[Ev.sleep 60], [], by simp [htr, hu]⟩
      · exact Or.inr ⟨Ev.sleep 60 :: Ev.poll s' :: pre, rest2, by simp [heq]⟩
    | false => rw [hpoLoop_done hb] at h ⊢; simp at h; exact Or.inl ⟨rfl, h.symm⟩

theorem autopilotPoll_some_split :
    ∀ (ss : List String) (u : String), (autopilotPoll ss).2 = some u →
      ∃ pre rest2, (autopilotPoll ss).1 = pre ++ Ev.poll u :: rest2 := by
  intro ss u h
  cases ss with
  | nil => simp [autopilotPoll] at h
  | cons s rest =>
    simp only [autopilotPoll] at h ⊢
    rcases autopilotLoop_some_split rest s u h with ⟨htr, hu⟩ | ⟨pre, rest2, heq⟩
    · exact ⟨[], [], by simp [htr, hu]⟩
    · exact ⟨Ev.poll s :: pre, rest2, by simp [heq]⟩

theorem hpoPoll_some_split :
    ∀ (ss : List String) (u : String), (hpoPoll ss).2 = some u →
      ∃ pre rest2, (hpoPoll ss).1 = pre ++ Ev.poll u :: rest2 := by
  intro ss u h
  cases ss with
  | nil => simp [hpoPoll] at h
  | cons s rest =>
    simp only [hpoPoll] at h ⊢
    rcases hpoLoop_some_split rest s u h with ⟨htr, hu⟩ | ⟨pre, rest2, heq⟩
    · exact ⟨[], [], by simp [htr, hu]⟩
    · exact ⟨Ev.poll s :: pre, rest2, by simp [heq]⟩

/-- C3: in every execution, the downstream step runs only after the poll
loop has observed a terminal status: whenever the notebook trace contains
the downstream action, the trace splits at a query whose status is
terminal for that loop and the downstream action lies after it. -/
theorem downstream_only_after_terminal (ss : List String) :
    (Ev.fetch ∈ textractNotebook ss →
      ∃ pre post u, textractNotebook ss = pre ++ Ev.poll u :: post ∧
        textractBusy u = false ∧ Ev.fetch ∈ post) ∧
    (Ev.fetch ∈ autopilotNotebook ss →
      ∃ pre post u, autopilotNotebook ss = pre ++ Ev.poll u :: post ∧
        autoMLTerminal u = true ∧ Ev.fetch ∈ post) ∧
    (Ev.fetch ∈ hpoNotebook ss →
      ∃ pre post u, hpoNotebook ss = pre ++ Ev.poll u :: post ∧
        hpoBusy u = false ∧ Ev.fetch ∈ post) := by
  refine ⟨?_, ?_, ?_⟩
  · intro hmem
    rcases hr : (textractPoll ss).2 with _ | u
    · rw [textractNotebook, (by exact Prod.ext rfl hr : textractPoll ss = ((textractPoll ss).1, none))] at hmem
      exact absurd hmem (textractPoll_no_fetch ss)
    · obtain ⟨pre, rest2, heq⟩ := textractPoll_some_split ss u hr
      refine ⟨pre, rest2 ++ [Ev.fetch], u, ?_, textractPoll_some_not_busy ss u hr, by simp⟩
      rw [textractNotebook, (by exact Prod.ext rfl hr : textractPoll ss = ((textractPoll ss).1, some u))]
      simp [heq]
  · intro hmem
    rcases hr : (autopilotPoll ss).2 with _ | u
    · rw [autopilotNotebook, (by exact Prod.ext rfl hr : autopilotPoll ss = ((autopilotPoll ss).1, none))] at hmem
      cases ss with
      | nil => simp [autopilotPoll] at hmem
      | cons s rest =>
        simp only [autopilotPoll] at hmem
        rcases List.mem_cons.mp hmem with h | h
        · exact absurd h.symm (by simp)
        · exact absurd h (autopilotLoop_no_fetch rest s)
    · obtain ⟨pre, rest2, heq⟩ := autopilotPoll_some_split ss u hr
      have hterm : autoMLTerminal u = true := by
        cases ss with
        | nil => simp [autopilotPoll] at hr
        | cons s rest => exact autopilotLoop_some_terminal rest s u hr
      refine ⟨pre, rest2 ++ [Ev.fetch], u, ?_, hterm, by simp⟩
      rw [autopilotNotebook, (by exact Prod.ext rfl hr : autopilotPoll ss = ((autopilotPoll ss).1, some u))]
      simp [heq]
  · intro hmem
    rcases hr : (hpoPoll ss).2 with _ | u
    · rw [hpoNotebook, (by exact Prod.ext rfl hr : hpoPoll ss = ((hpoPoll ss).1, none))] at hmem
      cases ss with
      | nil => simp [hpoPoll] at hmem
      | cons s rest =>
        simp only [hpoPoll] at hmem
        rcases List.mem_cons.mp hmem with h | h
        · exact absurd h.symm (by simp)
        · exact absurd h (hpoLoop_no_fetch rest s)
    · obtain ⟨pre, rest2, heq⟩ := hpoPoll_some_split ss u hr
      have hterm : hpoBusy u = false := by
        cases ss with
        | nil => simp [hpoPoll] at hr
        | cons s rest => exact hpoLoop_some_not_busy rest s u hr
      refine ⟨pre, rest2 ++ [Ev.fetch], u, ?_, hterm, by simp⟩
      rw [hpoNotebook, (by exact Prod.ext rfl hr : hpoPoll ss = ((hpoPoll ss).1, some u))]
      simp [heq]

/-- Witness for C3 on concrete streams whose downstream step does run. -/
theorem downstream_only_after_terminal_witness :
    (∃ pre post u, textractNotebook ["IN_PROGRESS", "SUCCEEDED"] =
        pre ++ Ev.poll u :: post ∧ textractBusy u = false ∧ Ev.fetch ∈ post) ∧
    (∃ pre post u, autopilotNotebook ["InProgress", "Completed"] =
        pre ++ Ev.poll u :: post ∧ autoMLTerminal u = true ∧ Ev.fetch ∈ post) ∧
    (∃ pre post u, hpoNotebook ["InProgress", "Completed"] =
        pre ++ Ev.poll u :: post ∧ hpoBusy u = false ∧ Ev.fetch ∈ post) :=
  ⟨(downstream_only_after_terminal ["IN_PROGRESS", "SUCCEEDED"]).1 (by decide),
   (downstream_only_after_terminal ["InProgress", "Completed"]).2.1 (by decide),
   (downstream_only_after_terminal ["InProgress", "Completed"]).2.2 (by decide)⟩

/-! ## Control flow depends only on the busy/terminal classification -/

theorem textractPoll_shape_congr {ss ss' : List String}
    (h : List.Forall₂ (fun a b => textractBusy a = textractBusy b) ss ss') :
    (textractPoll ss).1.map eraseStatus = (textractPoll ss').1.map eraseStatus ∧
    (textractPoll ss).2.isSome = (textractPoll ss').2.isSome := by
  induction h with
  | nil => exact ⟨rfl, rfl⟩
  | cons hab htail ih =>
    rename_i a b as bs
    cases hb : textractBusy a with
    | true =>
      have hb' : textractBusy b = true := by rw [← hab]; exact hb
      rw [textractPoll_cons_busy hb, textractPoll_cons_busy hb']
      exact ⟨by simp [eraseStatus, ih.1], ih.2⟩
    | false =>
      have hb' : textractBusy b = false := by rw [← hab]; exact hb
      rw [textractPoll_cons_done hb, textractPoll_cons_done hb']
      exact ⟨by simp [eraseStatus], rfl⟩

theorem autopilotLoop_shape_congr {rest rest' : List String}
    (h : List.Forall₂ (fun a b => autoMLTerminal a = autoMLTerminal b) rest rest') :
    ∀ s s', autoMLTerminal s = autoMLTerminal s' →
      (autopilotLoop s rest).1.map eraseStatus =
        (autopilotLoop s' rest').1.map eraseStatus ∧
      (autopilotLoop s rest).2.isSome = (autopilotLoop s' rest').2.isSome := by
  induction h with
  | nil =>
    intro s s' hss
    cases hb : autoMLTerminal s with
    | true =>
      have hb' : autoMLTerminal s' = true := by rw [← hss]; exact hb
      rw [autopilotLoop_term hb, autopilotLoop_term hb']
      exact ⟨rfl, rfl⟩
    | false =>
      have hb' : autoMLTerminal s' = false := by rw [← hss]; exact hb
      rw [autopilotLoop_busy_nil hb, autopilotLoop_busy_nil hb']
      exact ⟨rfl, rfl⟩
  | cons hab htail ih =>
    rename_i a b as bs
    intro s s' hss
    cases hb : autoMLTerminal s with
    | true =>
      have hb' : autoMLTerminal s' = true := by rw [← hss]; exact hb
      rw [autopilotLoop_term hb, autopilotLoop_term hb']
      exact ⟨rfl, rfl⟩
    | false =>
      have hb' : autoMLTerminal s' = false := by rw [← hss]; exact hb
      rw [autopilotLoop_busy_cons hb, autopilotLoop_busy_cons hb']
      exact ⟨by simp [eraseStatus, (ih a b hab).1], (ih a b hab).2⟩

theorem hpoLoop_shape_congr {rest rest' : List String}
    (h : List.Forall₂ (fun a b => hpoBusy a = hpoBusy b) rest rest') :
    ∀ s s', hpoBusy s = hpoBusy s' →
      (hpoLoop s rest).1.map eraseStatus = (hpoLoop s' rest').1.map eraseStatus ∧
      (hpoLoop s rest).2.isSome = (hpoLoop s' rest').2.isSome := by
  induction h with
  | nil =>
    intro s s' hss
    cases hb : hpoBusy s with
    | true =>
      have hb' : hpoBusy s' = true := by rw [← hss]; exact hb
      rw [hpoLoop_busy_nil hb, hpoLoop_busy_nil hb']
      exact ⟨rfl, rfl⟩
    | false =>
      have hb' : hpoBusy s' = false := by rw [← hss]; exact hb
      rw [hpoLoop_done hb, hpoLoop_done hb']
      exact ⟨rfl, rfl⟩
  | cons hab htail ih =>
    rename_i a b as bs
    intro s s' hss
    cases hb : hpoBusy s with
    | true =>
      have hb' : hpoBusy s' = true := by rw [← hss]; exact hb
      rw [hpoLoop_busy_cons hb, hpoLoop_busy_cons hb']
      exact ⟨by simp [eraseStatus, (ih a b hab).1], (ih a b hab).2⟩
    | false =>
      have hb' : hpoBusy s' = false := by rw [← hss]; exact hb
      rw [hpoLoop_done hb, hpoLoop_done hb']
      exact ⟨rfl, rfl⟩

/-- C4: no polling loop branches on anything finer than its binary
in-progress/terminal classification of the status: two status streams
whose statuses are pointwise classified alike drive each loop through the
same control flow — identical traces up to the prose of the statuses, and
the same exit decision.  In particular no fourth kind of status value can
change any loop's control flow. -/
theorem poll_control_flow_binary
    (ss ss' tt tt' uu uu' : List String)
    (h1 : List.Forall₂ (fun a b => textractBusy a = textractBusy b) ss ss')
    (h2 : List.Forall₂ (fun a b => autoMLTerminal a = autoMLTerminal b) tt tt')
    (h3 : List.Forall₂ (fun a b => hpoBusy a = hpoBusy b) uu uu') :
    ((textractPoll ss).1.map eraseStatus = (textractPoll ss').1.map eraseStatus ∧
     (textractPoll ss).2.isSome = (textractPoll ss').2.isSome) ∧
    ((autopilotPoll tt).1.map eraseStatus = (autopilotPoll tt').1.map eraseStatus ∧
     (autopilotPoll tt).2.isSome = (autopilotPoll tt').2.isSome) ∧
    ((hpoPoll uu).1.map eraseStatus = (hpoPoll uu').1.map eraseStatus ∧
     (hpoPoll uu).2.isSome = (hpoPoll uu').2.isSome) := by
  refine ⟨textractPoll_shape_congr h1, ?_, ?_⟩
  · cases h2 with
    | nil => exact ⟨rfl, rfl⟩
    | cons hab htail =>
      rename_i a b as bs
      have := autopilotLoop_shape_congr htail a b hab
      exact ⟨by simp [autopilotPoll, eraseStatus, this.1], by simp [autopilotPoll, this.2]⟩
  · cases h3 with
    | nil => exact ⟨rfl, rfl⟩
    | cons hab htail =>
      rename_i a b as bs
      have := hpoLoop_shape_congr htail a b hab
      exact ⟨by simp [hpoPoll, eraseStatus, this.1], by simp [hpoPoll, this.2]⟩

/-- Witness for C4: concrete streams whose statuses differ but are
classified alike (Textract exits on SUCCEEDED in one stream and on
PARTIAL_SUCCESS in the other, the Autopilot loop on Completed versus
Stopped, the HPO loop on Completed versus Failed) give the same control
flow. -/
theorem poll_control_flow_binary_witness :
    ((textractPoll ["IN_PROGRESS", "SUCCEEDED"]).1.map eraseStatus =
       (textractPoll ["IN_PROGRESS", "PARTIAL_SUCCESS"]).1.map eraseStatus ∧
     (textractPoll ["IN_PROGRESS", "SUCCEEDED"]).2.isSome =
       (textractPoll ["IN_PROGRESS", "PARTIAL_SUCCESS"]).2.isSome) ∧
    ((autopilotPoll ["InProgress", "Completed"]).1.map eraseStatus =
       (autopilotPoll ["Starting", "Stopped"]).1.map eraseStatus ∧
     (autopilotPoll ["InProgress", "Completed"]).2.isSome =
       (autopilotPoll ["Starting", "Stopped"]).2.isSome) ∧
    ((hpoPoll ["InProgress", "Completed"]).1.map eraseStatus =
       (hpoPoll ["InProgress", "Failed"]).1.map eraseStatus ∧
     (hpoPoll ["InProgress", "Completed"]).2.isSome =
       (hpoPoll ["InProgress", "Failed"]).2.isSome) :=
  poll_control_flow_binary _ _ _ _ _ _
    (List.Forall₂.cons (by decide) (List.Forall₂.cons (by decide) List.Forall₂.nil))
    (List.Forall₂.cons (by decide) (List.Forall₂.cons (by decide) List.Forall₂.nil))
    (List.Forall₂.cons (by decide) (List.Forall₂.cons (by decide) List.Forall₂.nil))

/-! ## Sleep discipline of the polling loops -/

theorem textract_sleep_values :
    ∀ (ss : List String) (n : Nat), Ev.sleep n ∈ (textractPoll ss).1 → n = 5 := by
  intro ss
  induction ss with
  | nil => intro n h; simp [textractPoll_nil] at h; exact h
  | cons s rest ih =>
    intro n h
    cases hb : textractBusy s with
    | true =>
      rw [textractPoll_cons_busy hb] at h
      simp at h
      rcases h with h | h
      · exact h
      · exact ih n h
    | false =>
      rw [textractPoll_cons_done hb] at h
      simp at h
      exact h

theorem autopilotLoop_sleep_values :
    ∀ (rest : List String) (s : String) (n : Nat),
      Ev.sleep n ∈ (autopilotLoop s rest).1 → n = 30 := by
  intro rest
  induction rest with
  | nil =>
    intro s n h
    cases hb : autoMLTerminal s with
    | true => rw [autopilotLoop_term hb] at h; simp at h
    | false => rw [autopilotLoop_busy_nil hb] at h; simp at h
  | cons s' rest' ih =>
    intro s n h
    cases hb : autoMLTerminal s with
    | true => rw [autopilotLoop_term hb] at h; simp at h
    | false =>
      rw [autopilotLoop_busy_cons hb] at h
      simp at h
      rcases h with h | h
      · exact h
      · exact ih s' n h

theorem hpoLoop_sleep_values :
    ∀ (rest : List String) (s : String) (n : Nat),
      Ev.sleep n ∈ (hpoLoop s rest).1 → n = 60 := by
  intro rest
  induction rest with
  | nil =>
    intro s n h
    cases hb : hpoBusy s with
    | true => rw [hpoLoop_busy_nil hb] at h; simp at h; exact h
    | false => rw [hpoLoop_done hb] at h; simp at h
  | cons s' rest' ih =>
    intro s n h
    cases hb : hpoBusy s with
    | true =>
      rw [hpoLoop_busy_cons hb] at h
      simp at h
      rcases h with h | h
      · exact h
      · exact ih s' n h
    | false => rw [hpoLoop_done hb] at h; simp at h

theorem textract_trace_sleep_head :
    ∀ ss : List String, ∃ tr, (textractPoll ss).1 = Ev.sleep 5 :: tr := by
  intro ss
  cases ss with
  | nil => exact ⟨[], rfl⟩
  | cons s rest =>
    cases hb : textractBusy s with
    | true => rw [textractPoll_cons_busy hb]; exact ⟨_, rfl⟩
    | false => rw [textractPoll_cons_done hb]; exact ⟨_, rfl⟩

theorem textract_no_adjacent_polls :
    ∀ ss : List String, adjacentPolls (textractPoll ss).1 = false := by
  intro ss
  induction ss with
  | nil => rfl
  | cons s rest ih =>
    cases hb : textractBusy s with
    | true =>
      rw [textractPoll_cons_busy hb]
      obtain ⟨tr, htr⟩ := textract_trace_sleep_head rest
      rw [htr] at ih ⊢
      simpa [adjacentPolls, isPoll] using ih
    | false => rw [textractPoll_cons_done hb]; rfl

theorem hpoLoop_no_adjacent_polls :
    ∀ (rest : List String) (s : String),
      adjacentPolls (hpoLoop s rest).1 = false ∧
      ∀ t, adjacentPolls (Ev.poll t :: (hpoLoop s rest).1) = false := by
  intro rest
  induction rest with
  | nil =>
    intro s
    cases hb : hpoBusy s with
    | true => rw [hpoLoop_busy_nil hb]; exact ⟨rfl, fun t => rfl⟩
    | false => rw [hpoLoop_done hb]; exact ⟨rfl, fun t => rfl⟩
  | cons s' rest' ih =>
    intro s
    cases hb : hpoBusy s with
    | true =>
      rw [hpoLoop_busy_cons hb]
      refine ⟨?_, fun t => ?_⟩
      · simpa [adjacentPolls, isPoll] using (ih s').2 s'
      · simpa [adjacentPolls, isPoll] using (ih s').2 s'
    | false => rw [hpoLoop_done hb]; exact ⟨rfl, fun t => rfl⟩

theorem hpo_no_adjacent_polls :
    ∀ ss : List String, adjacentPolls (hpoPoll ss).1 = false := by
  intro ss
  cases ss with
  | nil => rfl
  | cons s rest =>
    simp only [hpoPoll]
    exact (hpoLoop_no_adjacent_polls rest s).2 s

theorem textract_no_cancel : ∀ ss : List String, Ev.cancel ∉ (textractPoll ss).1 := by
  intro ss
  induction ss with
  | nil => simp [textractPoll_nil]
  | cons s rest ih =>
    cases hb : textractBusy s with
    | true => rw [textractPoll_cons_busy hb]; simp [ih]
    | false => rw [textractPoll_cons_done hb]; simp

theorem autopilotLoop_no_cancel :
    ∀ (rest : List String) (s : String), Ev.cancel ∉ (autopilotLoop s rest).1 := by
  intro rest
  induction rest with
  | nil =>
    intro s
    cases hb : autoMLTerminal s with
    | true => rw [autopilotLoop_term hb]; simp
    | false => rw [autopilotLoop_busy_nil hb]; simp
  | cons s' rest' ih =>
    intro s
    cases hb : autoMLTerminal s with
    | true => rw [autopilotLoop_term hb]; simp
    | false => rw [autopilotLoop_busy_cons hb]; simp [ih s']

theorem hpoLoop_no_cancel :
    ∀ (rest : List String) (s : String), Ev.cancel ∉ (hpoLoop s rest).1 := by
  intro rest
  induction rest with
  | nil =>
    intro s
    cases hb : hpoBusy s with
    | true => rw [hpoLoop_busy_nil hb]; simp
    | false => rw [hpoLoop_done hb]; simp
  | cons s' rest' ih =>
    intro s
    cases hb : hpoBusy s with
    | true => rw [hpoLoop_busy_cons hb]; simp [ih s']
    | false => rw [hpoLoop_done hb]; simp

/-- C6 counterexample: the Autopilot polling cell issues its first two
status queries back to back — on the stream `InProgress, Completed` its
trace is query, query, sleep, with no sleep between the two consecutive
queries (the `describe` before the loop is followed immediately by the
`describe` at the top of the loop body; the 30 second sleep comes after
it).  So it is not the case that a fixed sleep interval separates every
two consecutive status queries. -/
theorem autopilot_consecutive_polls_without_sleep :
    (autopilotPoll ["InProgress", "Completed"]).1 =
      [Ev.poll "InProgress", Ev.poll "Completed", Ev.sleep 30] ∧
    adjacentPolls (autopilotPoll ["InProgress", "Completed"]).1 = true := by
  decide

/-- C6 amended: every sleep in each loop's trace has that loop's fixed
duration — 5 seconds for Textract, 30 for Autopilot, 60 for HPO — so no
loop ever varies its interval; the Textract and HPO loops moreover sleep
between any two consecutive queries, while the Autopilot loop issues its
first two queries back to back and sleeps after each in-loop query; and no
loop ever cancels the remote job. -/
theorem poll_sleep_discipline (ss : List String) :
    (∀ n, Ev.sleep n ∈ (textractPoll ss).1 → n = 5) ∧
    (∀ n, Ev.sleep n ∈ (autopilotPoll ss).1 → n = 30) ∧
    (∀ n, Ev.sleep n ∈ (hpoPoll ss).1 → n = 60) ∧
    adjacentPolls (textractPoll ss).1 = false ∧
    adjacentPolls (hpoPoll ss).1 = false ∧
    Ev.cancel ∉ (textractPoll ss).1 ∧
    Ev.cancel ∉ (autopilotPoll ss).1 ∧
    Ev.cancel ∉ (hpoPoll ss).1 := by
  refine ⟨textract_sleep_values ss, ?_, ?_, textract_no_adjacent_polls ss,
    hpo_no_adjacent_polls ss, textract_no_cancel ss, ?_, ?_⟩
  · intro n h
    cases ss with
    | nil => simp [autopilotPoll] at h
    | cons s rest =>
      simp only [autopilotPoll] at h
      rcases List.mem_cons.mp h with h | h
      · exact absurd h.symm (by simp)
      · exact autopilotLoop_sleep_values rest s n h
  · intro n h
    cases ss with
    | nil => simp [hpoPoll] at h
    | cons s rest =>
      simp only [hpoPoll] at h
      rcases List.mem_cons.mp h with h | h
      · exact absurd h.symm (by simp)
      · exact hpoLoop_sleep_values rest s n h
  · cases ss with
    | nil => simp [autopilotPoll]
    | cons s rest =>
      simp only [autopilotPoll]
      intro h
      rcases List.mem_cons.mp h with h | h
      · exact absurd h.symm (by simp)
      · exact autopilotLoop_no_cancel rest s h
  · cases ss with
    | nil => simp [hpoPoll]
    | cons s rest =>
      simp only [hpoPoll]
      intro h
      rcases List.mem_cons.mp h with h | h
      · exact absurd h.symm (by simp)
      · exact hpoLoop_no_cancel rest s h

/-- Witness for the amended C6 on concrete streams containing a sleep of
each loop. -/
theorem poll_sleep_discipline_witness :
    (Ev.sleep 5 ∈ (textractPoll ["IN_PROGRESS", "SUCCEEDED"]).1 ∧ 5 = 5) ∧
    (Ev.sleep 30 ∈ (autopilotPoll ["InProgress", "Completed"]).1 ∧ 30 = 30) ∧
    (Ev.sleep 60 ∈ (hpoPoll ["InProgress", "Completed"]).1 ∧ 60 = 60) :=
  ⟨⟨by decide, (poll_sleep_discipline ["IN_PROGRESS", "SUCCEEDED"]).1 5 (by decide)⟩,
   ⟨by decide, (poll_sleep_discipline ["InProgress", "Completed"]).2.1 30 (by decide)⟩,
   ⟨by decide, (poll_sleep_discipline ["InProgress", "Completed"]).2.2.1 60 (by decide)⟩⟩

/-! ## Queries issued and exit decision of the three loops -/

theorem consumeCount_congr {p q : String → Bool} :
    ∀ {ss tt : List String}, List.Forall₂ (fun a b => p a = q b) ss tt →
      consumeCount p ss = consumeCount q tt := by
  intro ss tt h
  induction h with
  | nil => rfl
  | cons hab htail ih => simp [consumeCount, hab, ih]

theorem any_congr {p q : String → Bool} :
    ∀ {ss tt : List String}, List.Forall₂ (fun a b => p a = q b) ss tt →
      ss.any p = tt.any q := by
  intro ss tt h
  induction h with
  | nil => rfl
  | cons hab htail ih => simp [hab, ih]

theorem textract_pollCount :
    ∀ ss : List String, pollCount (textractPoll ss).1 = consumeCount textractBusy ss := by
  intro ss
  induction ss with
  | nil => rfl
  | cons s rest ih =>
    cases hb : textractBusy s with
    | true =>
      rw [textractPoll_cons_busy hb]
      simp [pollCount, List.countP_cons, isPoll, consumeCount, hb] at ih ⊢
      omega
    | false =>
      rw [textractPoll_cons_done hb]
      simp [pollCount, List.countP_cons, isPoll, consumeCount, hb]

theorem autopilotLoop_pollCount :
    ∀ (rest : List String) (s : String), autoMLTerminal s = false →
      pollCount (autopilotLoop s rest).1 =
        consumeCount (fun x => !autoMLTerminal x) rest := by
  intro rest
  induction rest with
  | nil => intro s hb; rw [autopilotLoop_busy_nil hb]; rfl
  | cons s' rest' ih =>
    intro s hb
    rw [autopilotLoop_busy_cons hb]
    cases hb' : autoMLTerminal s' with
    | true =>
      rw [autopilotLoop_term hb']
      simp [pollCount, List.countP_cons, isPoll, consumeCount, hb']
    | false =>
      have := ih s' hb'
      simp [pollCount, List.countP_cons, isPoll, consumeCount, hb'] at this ⊢
      omega

theorem autopilot_pollCount :
    ∀ tt : List String, pollCount (autopilotPoll tt).1 =
      consumeCount (fun x => !autoMLTerminal x) tt := by
  intro tt
  cases tt with
  | nil => rfl
  | cons s rest =>
    simp only [autopilotPoll]
    cases hb : autoMLTerminal s with
    | true =>
      rw [autopilotLoop_term hb]
      simp [pollCount, List.countP_cons, isPoll, consumeCount, hb]
    | false =>
      have := autopilotLoop_pollCount rest s hb
      simp [pollCount, List.countP_cons, isPoll, consumeCount, hb] at this ⊢
      omega

theorem hpoLoop_pollCount :
    ∀ (rest : List String) (s : String), hpoBusy s = true →
      pollCount (hpoLoop s rest).1 = consumeCount hpoBusy rest := by
  intro rest
  induction rest with
  | nil => intro s hb; rw [hpoLoop_busy_nil hb]; rfl
  | cons s' rest' ih =>
    intro s hb
    rw [hpoLoop_busy_cons hb]
    cases hb' : hpoBusy s' with
    | true =>
      have := ih s' hb'
      simp [pollCount, List.countP_cons, isPoll, consumeCount, hb'] at this ⊢
      omega
    | false =>
      rw [hpoLoop_done hb']
      simp [pollCount, List.countP_cons, isPoll, consumeCount, hb']

theorem hpo_pollCount :
    ∀ uu : List String, pollCount (hpoPoll uu).1 = consumeCount hpoBusy uu := by
  intro uu
  cases uu with
  | nil => rfl
  | cons s rest =>
    simp only [hpoPoll]
    cases hb : hpoBusy s with
    | true =>
      have := hpoLoop_pollCount rest s hb
      simp [pollCount, List.countP_cons, isPoll, consumeCount, hb] at this ⊢
      omega
    | false =>
      rw [hpoLoop_done hb]
      simp [pollCount, List.countP_cons, isPoll, consumeCount, hb]

theorem textract_isSome :
    ∀ ss : List String,
      (textractPoll ss).2.isSome = ss.any (fun s => !textractBusy s) := by
  intro ss
  induction ss with
  | nil => rfl
  | cons s rest ih =>
    cases hb : textractBusy s with
    | true => rw [textractPoll_cons_busy hb]; simp [hb, ih]
    | false => rw [textractPoll_cons_done hb]; simp [hb]

theorem autopilotLoop_isSome :
    ∀ (rest : List String) (s : String),
      (autopilotLoop s rest).2.isSome =
        (autoMLTerminal s || rest.any autoMLTerminal) := by
  intro rest
  induction rest with
  | nil =>
    intro s
    cases hb : autoMLTerminal s with
    | true => rw [autopilotLoop_term hb]; simp
    | false => rw [autopilotLoop_busy_nil hb]; simp
  | cons s' rest' ih =>
    intro s
    cases hb : autoMLTerminal s with
    | true => rw [autopilotLoop_term hb]; simp
    | false => rw [autopilotLoop_busy_cons hb]; simp [ih s']

theorem autopilot_isSome :
    ∀ tt : List String, (autopilotPoll tt).2.isSome = tt.any autoMLTerminal := by
  intro tt
  cases tt with
  | nil => rfl
  | cons s rest => simp [autopilotPoll, autopilotLoop_isSome rest s]

theorem hpoLoop_isSome :
    ∀ (rest : List String) (s : String),
      (hpoLoop s rest).2.isSome =
        (!hpoBusy s || rest.any (fun x => !hpoBusy x)) := by
  intro rest
  induction rest with
  | nil =>
    intro s
    cases hb : hpoBusy s with
    | true => rw [hpoLoop_busy_nil hb]; simp [hb]
    | false => rw [hpoLoop_done hb]; simp [hb]
  | cons s' rest' ih =>
    intro s
    cases hb : hpoBusy s with
    | true => rw [hpoLoop_busy_cons hb]; simp [hb, ih s']
    | false => rw [hpoLoop_done hb]; simp [hb]

theorem hpo_isSome :
    ∀ uu : List String,
      (hpoPoll uu).2.isSome = uu.any (fun x => !hpoBusy x) := by
  intro uu
  cases uu with
  | nil => rfl
  | cons s rest => simp [hpoPoll, hpoLoop_isSome rest s]

/-- C7 counterexample: on status streams that are classified alike — one
in-progress status, then one terminal status, in each loop's alphabet —
the three polling clients perform pairwise different sequences of poll and
sleep actions, even after forgetting statuses and sleep durations: the
Textract cell sleeps before every query, the HPO cell sleeps before every
query but its first, and the Autopilot cell queries twice back to back and
sleeps after its in-loop query.  So the three are not the same abstract
function. -/
theorem poll_loops_not_one_function :
    ((textractPoll ["IN_PROGRESS", "SUCCEEDED"]).1.map actOf ≠
       (autopilotPoll ["InProgress", "Completed"]).1.map actOf) ∧
    ((textractPoll ["IN_PROGRESS", "SUCCEEDED"]).1.map actOf ≠
       (hpoPoll ["InProgress", "Completed"]).1.map actOf) ∧
    ((autopilotPoll ["InProgress", "Completed"]).1.map actOf ≠
       (hpoPoll ["InProgress", "Completed"]).1.map actOf) ∧
    textractBusy "IN_PROGRESS" = true ∧ textractBusy "SUCCEEDED" = false ∧
    autoMLTerminal "InProgress" = false ∧ autoMLTerminal "Completed" = true ∧
    hpoBusy "InProgress" = true ∧ hpoBusy "Completed" = false := by
  decide

/-- C7 amended: the three polling clients are not literally the same
sequence of actions, but they agree on what the claim's exit point is:
on status streams that are pointwise classified alike, all three issue the
same number of status queries and make the same exit decision (all exit,
or all are still polling when the stream ends). -/
theorem poll_loops_same_exit (ss tt uu : List String)
    (h1 : List.Forall₂ (fun a b => textractBusy a = !autoMLTerminal b) ss tt)
    (h2 : List.Forall₂ (fun a b => textractBusy a = hpoBusy b) ss uu) :
    pollCount (textractPoll ss).1 = pollCount (autopilotPoll tt).1 ∧
    pollCount (textractPoll ss).1 = pollCount (hpoPoll uu).1 ∧
    (textractPoll ss).2.isSome = (autopilotPoll tt).2.isSome ∧
    (textractPoll ss).2.isSome = (hpoPoll uu).2.isSome := by
  refine ⟨?_, ?_, ?_, ?_⟩
  · rw [textract_pollCount, autopilot_pollCount]
    exact consumeCount_congr h1
  · rw [textract_pollCount, hpo_pollCount]
    exact consumeCount_congr h2
  · rw [textract_isSome, autopilot_isSome]
    exact any_congr (h1.imp (fun a b hab => by rw [hab, Bool.not_not]))
  · rw [textract_isSome, hpo_isSome]
    exact any_congr (h2.imp (fun a b hab => by rw [hab]))

/-- Witness for the amended C7 on concrete classification-aligned
streams. -/
theorem poll_loops_same_exit_witness :
    pollCount (textractPoll ["IN_PROGRESS", "SUCCEEDED"]).1 =
      pollCount (autopilotPoll ["InProgress", "Completed"]).1 ∧
    pollCount (textractPoll ["IN_PROGRESS", "SUCCEEDED"]).1 =
      pollCount (hpoPoll ["InProgress", "Completed"]).1 ∧
    (textractPoll ["IN_PROGRESS", "SUCCEEDED"]).2.isSome =
      (autopilotPoll ["InProgress", "Completed"]).2.isSome ∧
    (textractPoll ["IN_PROGRESS", "SUCCEEDED"]).2.isSome =
      (hpoPoll ["InProgress", "Completed"]).2.isSome :=
  poll_loops_same_exit _ _ _
    (List.Forall₂.cons (by decide) (List.Forall₂.cons (by decide) List.Forall₂.nil))
    (List.Forall₂.cons (by decide) (List.Forall₂.cons (by decide) List.Forall₂.nil))

/-! ## Error propagation -/

theorem textractPollE_error_mem {E : Type} :
    ∀ (ss : List (Except E String)) (e : E),
      textractPollE ss = Except.error e → Except.error e ∈ ss := by
  intro ss
  induction ss with
  | nil => intro e h; simp [textractPollE] at h
  | cons p rest ih =>
    intro e h
    cases p with
    | error e' =>
      simp [textractPollE] at h
      exact h ▸ List.mem_cons_self _ _
    | ok s =>
      cases hb : textractBusy s with
      | true =>
        simp [textractPollE, hb] at h
        exact List.mem_cons_of_mem _ (ih e h)
      | false => simp [textractPollE, hb] at h

theorem autopilotLoopE_error_mem {E : Type} :
    ∀ (rest : List (Except E String)) (s : String) (e : E),
      autopilotLoopE s rest = Except.error e → Except.error e ∈ rest := by
  intro rest
  induction rest with
  | nil =>
    intro s e h
    cases hb : autoMLTerminal s with
    | true => simp [autopilotLoopE, hb] at h
    | false => simp [autopilotLoopE, hb] at h
  | cons p rest' ih =>
    intro s e h
    cases hb : autoMLTerminal s with
    | true => cases p <;> simp [autopilotLoopE, hb] at h
    | false =>
      cases p with
      | error e' =>
        simp [autopilotLoopE, hb] at h
        exact h ▸ List.mem_cons_self _ _
      | ok s' =>
        simp [autopilotLoopE, hb] at h
        exact List.mem_cons_of_mem _ (ih s' e h)

theorem autopilotPollE_error_mem {E : Type} :
    ∀ (ss : List (Except E String)) (e : E),
      autopilotPollE ss = Except.error e → Except.error e ∈ ss := by
  intro ss e h
  cases ss with
  | nil => simp [autopilotPollE] at h
  | cons p rest =>
    cases p with
    | error e' =>
      simp [autopilotPollE] at h
      exact h ▸ List.mem_cons_self _ _
    | ok s =>
      simp [autopilotPollE] at h
      exact List.mem_cons_of_mem _ (autopilotLoopE_error_mem rest s e h)

theorem hpoPollE_error_mem {E : Type} :
    ∀ (ss : List (Except E String)) (e : E),
      hpoPollE ss = Except.error e → Except.error e ∈ ss := by
  intro ss
  induction ss with
  | nil => intro e h; simp [hpoPollE] at h
  | cons p rest ih =>
    intro e h
    cases p with
    | error e' =>
      simp [hpoPollE] at h
      exact h ▸ List.mem_cons_self _ _
    | ok s =>
      cases hb : hpoBusy s with
      | true =>
        simp [hpoPollE, hb] at h
        exact List.mem_cons_of_mem _ (ih e h)
      | false => simp [hpoPollE, hb] at h

theorem textractPollE_first_error {E : Type} :
    ∀ (pre : List (Except E String)) (e : E) (rest : List (Except E String)),
      (∀ p ∈ pre, ∃ s, p = Except.ok s ∧ textractBusy s = true) →
      textractPollE (pre ++ Except.error e :: rest) = Except.error e := by
  intro pre
  induction pre with
  | nil => intro e rest _; simp [textractPollE]
  | cons p pre' ih =>
    intro e rest hpre
    obtain ⟨s, hps, hbs⟩ := hpre p (List.mem_cons_self p pre')
    subst hps
    rw [List.cons_append]
    simp [textractPollE, hbs]
    exact ih e rest (fun q hq => hpre q (List.mem_cons_of_mem _ hq))

theorem autopilotLoopE_first_error {E : Type} :
    ∀ (pre : List (Except E String)) (s : String) (e : E)
      (rest : List (Except E String)),
      autoMLTerminal s = false →
      (∀ p ∈ pre, ∃ s', p = Except.ok s' ∧ autoMLTerminal s' = false) →
      autopilotLoopE s (pre ++ Except.error e :: rest) = Except.error e := by
  intro pre
  induction pre with
  | nil => intro s e rest hs _; simp [autopilotLoopE, hs]
  | cons p pre' ih =>
    intro s e rest hs hpre
    obtain ⟨s', hps, hbs⟩ := hpre p (List.mem_cons_self p pre')
    subst hps
    rw [List.cons_append]
    simp [autopilotLoopE, hs]
    exact ih s' e rest hbs (fun q hq => hpre q (List.mem_cons_of_mem _ hq))

theorem hpoPollE_first_error {E : Type} :
    ∀ (pre : List (Except E String)) (e : E) (rest : List (Except E String)),
      (∀ p ∈ pre, ∃ s, p = Except.ok s ∧ hpoBusy s = true) →
      hpoPollE (pre ++ Except.error e :: rest) = Except.error e := by
  intro pre
  induction pre with
  | nil => intro e rest _; simp [hpoPollE]
  | cons p pre' ih =>
    intro e rest hpre
    obtain ⟨s, hps, hbs⟩ := hpre p (List.mem_cons_self p pre')
    subst hps
    rw [List.cons_append]
    simp [hpoPollE, hbs]
    exact ih e rest (fun q hq => hpre q (List.mem_cons_of_mem _ hq))

/-- C8: the notebooks handle no errors of their own.  Whatever error type
`E` the cloud SDK raises with: an error result of any polling loop is one
of the stream's own errors, unchanged — no loop produces an error of its
own or transforms one — and the first error raised while a job is still
in progress aborts the loop with exactly that error (no catch, no
retry). -/
theorem sdk_errors_propagate_unchanged {E : Type} (ss : List (Except E String)) :
    (∀ e, textractPollE ss = Except.error e → Except.error e ∈ ss) ∧
    (∀ e, autopilotPollE ss = Except.error e → Except.error e ∈ ss) ∧
    (∀ e, hpoPollE ss = Except.error e → Except.error e ∈ ss) ∧
    (∀ pre e rest, ss = pre ++ Except.error e :: rest →
      ((∀ p ∈ pre, ∃ s, p = Except.ok s ∧ textractBusy s = true) →
        textractPollE ss = Except.error e) ∧
      ((∀ p ∈ pre, ∃ s, p = Except.ok s ∧ autoMLTerminal s = false) →
        autopilotPollE ss = Except.error e) ∧
      ((∀ p ∈ pre, ∃ s, p = Except.ok s ∧ hpoBusy s = true) →
        hpoPollE ss = Except.error e)) := by
  refine ⟨textractPollE_error_mem ss, autopilotPollE_error_mem ss,
    hpoPollE_error_mem ss, ?_⟩
  intro pre e rest hss
  subst hss
  refine ⟨textractPollE_first_error pre e rest, ?_, hpoPollE_first_error pre e rest⟩
  intro hpre
  cases pre with
  | nil => simp [autopilotPollE]
  | cons p pre' =>
    obtain ⟨s, hps, hbs⟩ := hpre p (List.mem_cons_self p pre')
    subst hps
    rw [List.cons_append]
    simp only [autopilotPollE]
    exact autopilotLoopE_first_error pre' s e rest hbs
      (fun q hq => hpre q (List.mem_cons_of_mem _ hq))

/-- Witness for C8: a concrete stream whose second call raises error `7`
while the job is in progress; each loop's value is exactly that error, and
it is one of the stream's own errors. -/
theorem sdk_errors_propagate_unchanged_witness :
    (Except.error 7 ∈
      ([Except.ok "IN_PROGRESS", Except.error 7] : List (Except Nat String))) ∧
    textractPollE ([Except.ok "IN_PROGRESS", Except.error 7] :
      List (Except Nat String)) = Except.error 7 ∧
    autopilotPollE ([Except.ok "InProgress", Except.error 7] :
      List (Except Nat String)) = Except.error 7 ∧
    hpoPollE ([Except.ok "InProgress", Except.error 7] :
      List (Except Nat String)) = Except.error 7 := by
  have h1 := ((sdk_errors_propagate_unchanged
      [Except.ok "IN_PROGRESS", Except.error 7]).2.2.2
      [Except.ok "IN_PROGRESS"] 7 [] rfl).1 (by
        intro p hp
        simp at hp
        exact ⟨"IN_PROGRESS", hp, by decide⟩)
  have h2 := ((sdk_errors_propagate_unchanged
      [Except.ok "InProgress", Except.error 7]).2.2.2
      [Except.ok "InProgress"] 7 [] rfl).2.1 (by
        intro p hp
        simp at hp
        exact ⟨"InProgress", hp, by decide⟩)
  have h3 := ((sdk_errors_propagate_unchanged
      [Except.ok "InProgress", Except.error 7]).2.2.2
      [Except.ok "InProgress"] 7 [] rfl).2.2 (by
        intro p hp
        simp at hp
        exact ⟨"InProgress", hp, by decide⟩)
  exact ⟨(sdk_errors_propagate_unchanged _).1 7 h1, h1, h2, h3⟩

/-! ## Pagination -/

theorem fetchPages_none {r : TResponse} {rest : List TResponse}
    (h : r.nextToken = none) : fetchPages r rest = ([r], []) := by
  cases rest <;> simp [fetchPages, h]

theorem fetchPages_empty_token {r : TResponse} {rest : List TResponse} {t : String}
    (h : r.nextToken = some t) (he : (t == "") = true) :
    fetchPages r rest = ([r], []) := by
  rw [fetchPages, h]
  simp [he]

theorem fetchPages_some_nil {r : TResponse} {t : String}
    (h : r.nextToken = some t) (he : (t == "") = false) :
    fetchPages r [] = ([r], [t]) := by
  simp [fetchPages, h, he]

theorem fetchPages_some_cons {r r' : TResponse} {t : String}
    {rest' : List TResponse}
    (h : r.nextToken = some t) (he : (t == "") = false) :
    fetchPages r (r' :: rest') =
      (r :: (fetchPages r' rest').1, t :: (fetchPages r' rest').2) := by
  rw [fetchPages, h]
  simp [he]

/-- C5 counterexample: a response sequence whose last element has no
`NextToken` but whose first element carries the token `""`.  The sequence
ends in a response without `NextToken`, yet `pages` is not the full
sequence: `while(nextToken)` treats the empty string as falsy (Python
truthiness), so the loop stops after the first response. -/
theorem pagination_stops_at_empty_token :
    (TResponse.mk 1 none).nextToken = none ∧
    (fetchPages (TResponse.mk 0 (some "")) [TResponse.mk 1 none]).1 =
      [TResponse.mk 0 (some "")] ∧
    [TResponse.mk 0 (some "")] ≠ [TResponse.mk 0 (some ""), TResponse.mk 1 none] := by
  refine ⟨rfl, ?_, by simp⟩
  rw [@fetchPages_empty_token (TResponse.mk 0 (some "")) [TResponse.mk 1 none] "" rfl rfl]

/-- C5 amended: the fetch loop appends exactly one entry per response in
order, passes to each subsequent request the `NextToken` of the
immediately preceding response, and stops at the first response whose
`NextToken` is missing — or empty, which Python truthiness treats the
same: for every finite response sequence whose non-final responses all
carry a nonempty `NextToken` and whose last response carries none, `pages`
equals the full sequence and the requested tokens are exactly the
`NextToken` values of the non-final responses, in order. -/
theorem pagination_collects_all (pre : List TResponse) (last : TResponse)
    (hpre : ∀ x ∈ pre, truthy x.nextToken = true)
    (hlast : last.nextToken = none) :
    ∀ (r : TResponse) (rest : List TResponse), pre ++ [last] = r :: rest →
      fetchPages r rest =
        (pre ++ [last], pre.filterMap (fun x => x.nextToken)) := by
  induction pre with
  | nil =>
    intro r rest he
    simp at he
    obtain ⟨h1, h2⟩ := he
    subst h1
    subst h2
    simp [fetchPages_none hlast]
  | cons x pre' ih =>
    intro r rest he
    rw [List.cons_append] at he
    injection he with hxr hrest
    subst hxr
    subst hrest
    have hx : truthy x.nextToken = true := hpre x (List.mem_cons_self x pre')
    obtain ⟨t, ht⟩ : ∃ t, x.nextToken = some t := by
      cases hnt : x.nextToken with
      | none => rw [hnt] at hx; simp [truthy] at hx
      | some t => exact ⟨t, rfl⟩
    have hte : (t == "") = false := by
      rw [ht] at hx
      simp [truthy] at hx
      simpa using hx
    cases hpl : pre' ++ [last] with
    | nil => exact absurd hpl (by simp)
    | cons r' rest' =>
      have hrec := ih (fun q hq => hpre q (List.mem_cons_of_mem x hq)) r' rest' hpl
      rw [fetchPages_some_cons ht hte, hrec]
      simp [ht]

/-- Witness for the amended C5: one tokened response followed by a final
tokenless one; `pages` is the full sequence and the single request carried
the first response's token. -/
theorem pagination_collects_all_witness :
    fetchPages (TResponse.mk 0 (some "tok")) [TResponse.mk 1 none] =
      ([TResponse.mk 0 (some "tok"), TResponse.mk 1 none], ["tok"]) :=
  pagination_collects_all [TResponse.mk 0 (some "tok")] (TResponse.mk 1 none)
    (by decide) rfl (TResponse.mk 0 (some "tok")) [TResponse.mk 1 none] rfl

/-! ## Chunking -/

theorem chunksOf_nil {k : Nat} (hk : 0 < k) : chunksOf k [] = [] := by
  have h0 : (k - 1) / k = 0 := Nat.div_eq_of_lt (by omega)
  simp [chunksOf, pyRange, h0]

theorem chunksOf_cons {k : Nat} (hk : 0 < k) {xs : List Char} (hxs : xs ≠ []) :
    chunksOf k xs = xs.take k :: chunksOf k (xs.drop k) := by
  have hn : 0 < xs.length := List.length_pos.mpr hxs
  have hc : (xs.length - 0 + k - 1) / k = ((xs.drop k).length - 0 + k - 1) / k + 1 := by
    rw [List.length_drop]
    rcases Nat.lt_or_ge k xs.length with hlt | hge
    · have he : xs.length - 0 + k - 1 = (xs.length - k - 0 + k - 1) + k := by omega
      rw [he, Nat.add_div_right _ hk]
    · have h1 : xs.length - k - 0 + k - 1 = k - 1 := by omega
      have h2 : (k - 1) / k = 0 := Nat.div_eq_of_lt (by omega)
      have h3 : (xs.length - 0 + k - 1) / k = 1 :=
        Nat.div_eq_of_lt_le (by omega) (by omega)
      rw [h1, h2, h3]
  simp only [chunksOf, pyRange]
  rw [hc, List.range_succ_eq_map]
  simp only [List.map_cons, List.map_map, Function.comp]
  refine congrArg₂ List.cons ?_ ?_
  · simp [pySlice]
  · refine List.map_congr_left ?_
    intro j hj
    simp only [pySlice, List.drop_drop]
    simp [Nat.succ_mul, Nat.add_comm]

theorem chunksOf_flatten {k : Nat} (hk : 0 < k) :
    ∀ (n : Nat) (xs : List Char), xs.length ≤ n → (chunksOf k xs).flatten = xs := by
  intro n
  induction n with
  | zero =>
    intro xs h
    have hxs : xs = [] := List.length_eq_zero.mp (by omega)
    subst hxs
    rw [chunksOf_nil hk]
    rfl
  | succ n ih =>
    intro xs h
    by_cases hxs : xs = []
    · subst hxs
      rw [chunksOf_nil hk]
      rfl
    · have hn : 0 < xs.length := List.length_pos.mpr hxs
      rw [chunksOf_cons hk hxs, List.flatten_cons,
        ih (xs.drop k) (by rw [List.length_drop]; omega)]
      exact List.take_append_drop k xs

theorem chunksOf_length_le {k : Nat} {xs : List Char} :
    ∀ c ∈ chunksOf k xs, c.length ≤ k := by
  intro c hc
  simp only [chunksOf, List.mem_map] at hc
  obtain ⟨i, _, hceq⟩ := hc
  rw [← hceq, pySlice, List.length_take]
  omega

theorem chunks_no_overlap {k : Nat} (xs : List Char) :
    ∀ i1 i2, i1 ∈ pyRange 0 xs.length k → i2 ∈ pyRange 0 xs.length k →
      i1 < i2 → i1 + (pySlice xs i1 k).length ≤ i2 := by
  intro i1 i2 h1 h2 hlt
  simp only [pyRange, List.mem_map, List.mem_range] at h1 h2
  obtain ⟨j1, _, hi1⟩ := h1
  obtain ⟨j2, _, hi2⟩ := h2
  subst hi1
  subst hi2
  simp only [Nat.zero_add] at hlt ⊢
  have hjj : j1 < j2 := Nat.lt_of_mul_lt_mul_right hlt
  have hlen : (pySlice xs (j1 * k) k).length ≤ k := by
    rw [pySlice, List.length_take]
    omega
  have hmul : (j1 + 1) * k ≤ j2 * k := Nat.mul_le_mul_right k hjj
  have hstep : j1 * k + k = (j1 + 1) * k := by ring
  omega

/-- C1: the Comprehend Medical cell submits, for each page text, exactly
the consecutive slices `pageText[i : i+20000]` for
`i = 0, 20000, 40000, ...` — so every submitted chunk is at most 20000
characters long, the chunks concatenated in order are the whole page text,
and the chunks do not overlap: the chunk submitted at an earlier loop
index ends at or before the position where a later chunk starts. -/
theorem comprehend_chunking (pageText : List Char) :
    maxLength = 20000 ∧
    comprehendChunks pageText =
      (pyRange 0 pageText.length maxLength).map
        (fun i => pySlice pageText i maxLength) ∧
    (∀ c ∈ comprehendChunks pageText, c.length ≤ 20000) ∧
    (comprehendChunks pageText).flatten = pageText ∧
    (∀ i1 i2, i1 ∈ pyRange 0 pageText.length maxLength →
       i2 ∈ pyRange 0 pageText.length maxLength → i1 < i2 →
       i1 + (pySlice pageText i1 maxLength).length ≤ i2) := by
  refine ⟨rfl, rfl, ?_, ?_, chunks_no_overlap pageText⟩
  · intro c hc
    exact chunksOf_length_le c hc
  · exact chunksOf_flatten (k := maxLength) (by decide) pageText.length pageText le_rfl

/-- Witness for C1 on the page text `ab`: a single chunk equal to the
whole text. -/
theorem comprehend_chunking_witness :
    (comprehendChunks [Char.ofNat 97, Char.ofNat 98] =
      [[Char.ofNat 97, Char.ofNat 98]]) ∧
    ([Char.ofNat 97, Char.ofNat 98] : List Char).length ≤ 20000 ∧
    (comprehendChunks [Char.ofNat 97, Char.ofNat 98]).flatten =
      [Char.ofNat 97, Char.ofNat 98] := by
  have h := comprehend_chunking [Char.ofNat 97, Char.ofNat 98]
  refine ⟨?_, ?_, h.2.2.2.1⟩
  · decide
  · exact h.2.2.1 [Char.ofNat 97, Char.ofNat 98] (by decide)

/-! ## Data splits -/

theorem length_filter_partition {α : Type} (p : α → Bool) :
    ∀ l : List α,
      (l.filter p).length + (l.filter (fun x => !p x)).length = l.length := by
  intro l
  induction l with
  | nil => rfl
  | cons x l ih =>
    cases hp : p x with
    | true => simp [List.filter_cons, hp, ← ih]; omega
    | false => simp [List.filter_cons, hp, ← ih]; omega

/-- C10: both data-splitting steps partition their input.
`np.split(shuffled, [a, b])` (the XGBoost/HPO notebook, with
`a = int(0.7*n)` and `b = int(0.9*n)`, which satisfy `a ≤ b ≤ n`) yields
three slices that concatenate back to the whole frame and have lengths
`a`, `b - a` and `n - b`; and in the Autopilot notebook every row of
`churn` lands in exactly one of `train_data = churn.sample(...)` and
`test_data = churn.drop(train_data.index)`, whose sizes add up to the
whole frame. -/
theorem data_splits_partition {ρ σ : Type} (xs : List ρ) (a b : Nat)
    (hab : a ≤ b) (hbn : b ≤ xs.length)
    (churn : List (Row σ)) (S : Nat → Bool) :
    (npSplit3 xs a b).1 ++ ((npSplit3 xs a b).2.1 ++ (npSplit3 xs a b).2.2) = xs ∧
    (npSplit3 xs a b).1.length = a ∧
    (npSplit3 xs a b).2.1.length = b - a ∧
    (npSplit3 xs a b).2.2.length = xs.length - b ∧
    (∀ r ∈ churn,
      (r ∈ sampleRows churn S ∧ r ∉ dropRows churn S ∧ S r.1 = true) ∨
      (r ∈ dropRows churn S ∧ r ∉ sampleRows churn S ∧ S r.1 = false)) ∧
    (sampleRows churn S).length + (dropRows churn S).length = churn.length := by
  refine ⟨?_, ?_, ?_, ?_, ?_, ?_⟩
  · show xs.take a ++ ((xs.drop a).take (b - a) ++ xs.drop b) = xs
    have hdd : (xs.drop a).drop (b - a) = xs.drop b := by
      rw [List.drop_drop]
      congr 1
      omega
    calc xs.take a ++ ((xs.drop a).take (b - a) ++ xs.drop b)
        = xs.take a ++ ((xs.drop a).take (b - a) ++ (xs.drop a).drop (b - a)) := by
          rw [hdd]
      _ = xs.take a ++ xs.drop a := by rw [List.take_append_drop]
      _ = xs := List.take_append_drop a xs
  · show (xs.take a).length = a
    rw [List.length_take]
    omega
  · show ((xs.drop a).take (b - a)).length = b - a
    rw [List.length_take, List.length_drop]
    omega
  · show (xs.drop b).length = xs.length - b
    exact List.length_drop b xs
  · intro r hr
    by_cases hS : S r.1 = true
    · left
      refine ⟨List.mem_filter.mpr ⟨hr, hS⟩, ?_, hS⟩
      intro hmem
      have hcon := (List.mem_filter.mp hmem).2
      simp [hS] at hcon
    · have hS' : S r.1 = false := by simpa using hS
      right
      refine ⟨List.mem_filter.mpr ⟨hr, by simp [hS']⟩, ?_, hS'⟩
      intro hmem
      have hcon := (List.mem_filter.mp hmem).2
      simp [hS'] at hcon
  · show (churn.filter (fun r => S r.1)).length +
        (churn.filter (fun r => !S r.1)).length = churn.length
    exact length_filter_partition (fun r => S r.1) churn

/-- Witness for C10: ten rows split at `int(0.7*10) = 7` and
`int(0.9*10) = 9` (the values the notebook's float expressions produce),
and a two-row frame sampled on a singleton index set. -/
theorem data_splits_partition_witness :
    (npSplit3 ([0, 1, 2, 3, 4, 5, 6, 7, 8, 9] : List Nat) 7 9).1 ++
      ((npSplit3 ([0, 1, 2, 3, 4, 5, 6, 7, 8, 9] : List Nat) 7 9).2.1 ++
        (npSplit3 ([0, 1, 2, 3, 4, 5, 6, 7, 8, 9] : List Nat) 7 9).2.2) =
      [0, 1, 2, 3, 4, 5, 6, 7, 8, 9] ∧
    (npSplit3 ([0, 1, 2, 3, 4, 5, 6, 7, 8, 9] : List Nat) 7 9).1.length = 7 ∧
    (((0, 5) ∈ sampleRows ([(0, 5), (1, 6)] : List (Row Nat)) (fun n => n == 0) ∧
        (0, 5) ∉ dropRows ([(0, 5), (1, 6)] : List (Row Nat)) (fun n => n == 0) ∧
        (((0, 5) : Row Nat).1 == 0) = true) ∨
      ((0, 5) ∈ dropRows ([(0, 5), (1, 6)] : List (Row Nat)) (fun n => n == 0) ∧
        (0, 5) ∉ sampleRows ([(0, 5), (1, 6)] : List (Row Nat)) (fun n => n == 0) ∧
        (((0, 5) : Row Nat).1 == 0) = false)) :=
  ⟨(data_splits_partition [0, 1, 2, 3, 4, 5, 6, 7, 8, 9] 7 9 (by decide) (by decide)
      ([] : List (Row Nat)) (fun _ => true)).1,
   (data_splits_partition [0, 1, 2, 3, 4, 5, 6, 7, 8, 9] 7 9 (by decide) (by decide)
      ([] : List (Row Nat)) (fun _ => true)).2.1,
   (data_splits_partition [0, 1, 2, 3, 4, 5, 6, 7, 8, 9] 7 9 (by decide) (by decide)
      [(0, 5), (1, 6)] (fun n => n == 0)).2.2.2.2.1 (0, 5) (by decide)⟩

/-! ## Teardown -/

/-- The Autopilot half of C9, together with the fact behind the Textract
half's failure: the Autopilot cleanup cell deletes exactly the three
resources the deploy cell created — same names, nothing else — while the
Textract cleanup cell reads the variable `textractObjectName`, which no
cell of that notebook ever binds (the upload went to the key held in
`S3_path`), so running it raises `NameError` instead of deleting the
uploaded object. -/
theorem teardown_deletes_created (cand suffix : String) (r : RKind × String) :
    (r ∈ autopilotDeleted cand suffix ↔ r ∈ autopilotCreated cand suffix) ∧
    "textractObjectName" ∉ textractAssignedNames ∧
    "S3_path" ∈ textractAssignedNames := by
  refine ⟨?_, by decide, by decide⟩
  constructor <;> intro h <;>
    · simp [autopilotDeleted, autopilotCreated] at h ⊢
      tauto

/-- Witness for the teardown theorem at concrete names. -/
theorem teardown_deletes_created_witness :
    ((RKind.model, "cand" ++ "-t" ++ "-model") ∈ autopilotDeleted "cand" "-t") ∧
    ((RKind.model, "cand" ++ "-t" ++ "-model") ∈ autopilotCreated "cand" "-t") :=
  ⟨by decide,
   (teardown_deletes_created "cand" "-t"
      (RKind.model, "cand" ++ "-t" ++ "-model")).1.mp (by decide)⟩

end SMWorkshop
